import Mathlib

/-!
A verification development for a small rule-based conversational agent.
The agent routes one user utterance to one of seven capabilities
(greeting, memory write, memory read, time, arithmetic, follow-up,
fallback), backed by a sandboxed arithmetic evaluator over Python's
expression AST, an in-memory facts store, and a local follow-up
heuristic (source files: tools.py and agent.py).

Modelling conventions:
* All text is modelled as `List Char`; ASCII case folding and ASCII
  whitespace model Python's `str.lower`, `str.strip` and regex `\s`,
  `\w`, `\d` classes (the repository only ever exercises ASCII inputs).
* Python floats are modelled as exact rationals (`PyFloat`); IEEE-754
  rounding is not reproduced.  Theorems about computed values are
  therefore restricted to the float-exact fragment (`intExact`: integer
  values of magnitude below `2^53`), where double arithmetic coincides
  with exact arithmetic; theorems about failure outcomes do not depend
  on rounding.  `str(float)` is modelled for integer-valued results:
  the `N.0` form below `10^16` and exact-digit scientific notation at
  or above it (Python prints the shortest round-tripping digits, which
  coincide with the exact digits on every value a claim exercises);
  non-integral renderings (which no claim touches) are rendered as
  `num/den`.  Fractional exponents, whose float result the rational
  model cannot hold, and float overflow are outside the model; no claim
  exercises them.
* `ast.parse(expr, mode="eval")` is modelled by a tokenizer for Python's
  numeric literal forms (decimal integers and floats with underscore
  separators and the leading-zero restriction, hex/octal/binary, the
  keyword constants `True`/`False`/`None`) and a recursive-descent
  parser for the arithmetic expression grammar extended with
  identifiers and string literals; constructs outside that fragment
  (call argument lists, comparison chains, assignment targets,
  statement sequences, imaginary literals) are mapped to parse errors.
  In the real program those inputs either fail to parse or parse to an
  AST node that `_eval` rejects, so `calculator`'s observable result (a
  failure `ToolResult`) is the same.
* The OpenAI delegate `_openai_reply` is an opaque boundary: it is a
  parameter of type `AiFn` returning `none` for "unavailable" and the
  response text otherwise.  `datetime.now()` is likewise a parameter.
-/

/-- ASCII whitespace, Python's regex `\s` class for ASCII text. -/
def isWsC (c : Char) : Bool :=
  c = ' ' || c = '\t' || c = '\n' || c = '\r' || c = '\x0b' || c = '\x0c'

/-- ASCII decimal digit, Python's regex `\d` class for ASCII text. -/
def isDigitC (c : Char) : Bool :=
  '0' ≤ c && c ≤ '9'

/-- Word character for Python's regex `\b` boundary (`[A-Za-z0-9_]`). -/
def isWordC (c : Char) : Bool :=
  c.isAlpha || isDigitC c || c = '_'

/-- ASCII lower casing, models Python's `str.lower` / `re.I` on the
ASCII texts the agent handles. -/
def lowerC (c : Char) : Char :=
  match c with
  | 'A' => 'a' | 'B' => 'b' | 'C' => 'c' | 'D' => 'd' | 'E' => 'e'
  | 'F' => 'f' | 'G' => 'g' | 'H' => 'h' | 'I' => 'i' | 'J' => 'j'
  | 'K' => 'k' | 'L' => 'l' | 'M' => 'm' | 'N' => 'n' | 'O' => 'o'
  | 'P' => 'p' | 'Q' => 'q' | 'R' => 'r' | 'S' => 's' | 'T' => 't'
  | 'U' => 'u' | 'V' => 'v' | 'W' => 'w' | 'X' => 'x' | 'Y' => 'y'
  | 'Z' => 'z'
  | other => other

/-- Python's `str.strip()`: drop whitespace from both ends. -/
def trimBoth (l : List Char) : List Char :=
  ((l.dropWhile isWsC).reverse.dropWhile isWsC).reverse

/-- Key normalisation used by the facts store: `key.strip().lower()`. -/
def normKey (k : List Char) : List Char :=
  (trimBoth k).map lowerC

/-- The apostrophe character, used inside several reply texts. -/
def apoC : Char := '\x27'

/-- A double quote character. -/
def dquoteC : Char := '"'

/-! ## Exact rationals standing in for Python floats

Every numeric value the calculator's claims exercise is exactly
representable, so Python floats are modelled by exact fractions.  The
model carries its own small fraction arithmetic (rather than Mathlib's
`Rat`, whose operations do not reduce inside the kernel): a `PyFloat` is
kept normalized (positive denominator, coprime numerator/denominator) by
every operation below, so structural equality is value equality. -/

structure PyFloat where
  num : Int
  den : Nat
deriving DecidableEq, Repr

/-- Euclid's algorithm with explicit fuel (the first argument strictly
decreases each round, so `a + 1` steps always suffice). -/
def gcdFuel : Nat → Nat → Nat → Nat
  | 0, _, b => b
  | _ + 1, 0, b => b
  | f + 1, Nat.succ a, b => gcdFuel f (b % Nat.succ a) (Nat.succ a)

def gcdF (a b : Nat) : Nat := gcdFuel (a + 1) a b

/-- Normalize a fraction with nonnegative denominator. -/
def pfNorm (n : Int) (d : Nat) : PyFloat :=
  if d = 0 then ⟨0, 1⟩
  else
    let g := gcdF n.natAbs d
    if g = 0 then ⟨0, 1⟩ else ⟨n / (g : Int), d / g⟩

def pfInt (n : Int) : PyFloat := ⟨n, 1⟩

def pfZero : PyFloat := pfInt 0

def pfOfNat (n : Nat) : PyFloat := ⟨(n : Int), 1⟩

def pfAdd (a b : PyFloat) : PyFloat :=
  pfNorm (a.num * b.den + b.num * a.den) (a.den * b.den)

def pfSub (a b : PyFloat) : PyFloat :=
  pfNorm (a.num * b.den - b.num * a.den) (a.den * b.den)

def pfMul (a b : PyFloat) : PyFloat :=
  pfNorm (a.num * b.num) (a.den * b.den)

def pfNeg (a : PyFloat) : PyFloat := ⟨-a.num, a.den⟩

/-- Exact division (callers guard the zero divisor). -/
def pfDiv (a b : PyFloat) : PyFloat :=
  if b.num < 0 then pfNorm (-(a.num * b.den)) (a.den * b.num.natAbs)
  else pfNorm (a.num * b.den) (a.den * b.num.natAbs)

/-- Floor of a normalized fraction. -/
def pfFloor (a : PyFloat) : Int := a.num.fdiv a.den

def pfPowNat (a : PyFloat) : Nat → PyFloat
  | 0 => pfInt 1
  | n + 1 => pfMul a (pfPowNat a n)

/-- Reciprocal of a nonzero normalized fraction. -/
def pfInv (a : PyFloat) : PyFloat :=
  if a.num < 0 then ⟨-(a.den : Int), a.num.natAbs⟩ else ⟨(a.den : Int), a.num.natAbs⟩

def pfPowInt (a : PyFloat) (n : Int) : PyFloat :=
  if n < 0 then pfInv (pfPowNat a n.natAbs) else pfPowNat a n.natAbs

/-! ## Trace objects (tools.py, `ToolEvent` / `ToolResult`) -/

structure ToolEvent where
  name : List Char
  input : List Char
  ok : Bool
  output : List Char
deriving DecidableEq, Repr

structure ToolResult where
  ok : Bool
  content : List Char
  event : ToolEvent
deriving DecidableEq, Repr

/-! ## Tokenizer for Python arithmetic expressions

Models the token stream `ast.parse` sees for the expression fragment the
calculator can encounter.  Decimal integers, decimals and exponent forms
are recognised; any other character (including quote-delimited string
literals, identifiers, comparison operators, `=`, `,`) becomes its own
token or a tokenizer error. -/

inductive Tok where
  | num (q : PyFloat)
  | kwTrue | kwFalse | kwNone
  | ident (s : List Char)
  | strlit (s : List Char)
  | plus | minus | star | slash | dslash | dstar | percent
  | lparen | rparen
  | eqTok | comma
  | cmpTok (s : List Char)
deriving DecidableEq, Repr

/-- Identifier start character (`[A-Za-z_]`). -/
def isIdentStart (c : Char) : Bool := c.isAlpha || c = '_'

/-- Identifier continuation character (`[A-Za-z0-9_]`). -/
def isIdentC (c : Char) : Bool := c.isAlpha || isDigitC c || c = '_'

/-- Digits to a natural number. -/
def digitsVal (l : List Char) : Nat :=
  l.foldl (fun n c => n * 10 + (c.toNat - '0'.toNat)) 0

def msgFuel : List Char := "internal fuel exhausted".toList
def msgBadChar : List Char := "invalid character".toList
def msgBadNum : List Char := "invalid decimal literal".toList
def msgUnterminated : List Char := "unterminated string literal".toList
def msgSyntax : List Char := "invalid syntax".toList

def msgLeadZero : List Char :=
  "leading zeros in decimal integer literals are not permitted".toList

/-- Scan a digit run allowing single underscores before digits (the
grammar's `(["_"] digit)*`; a leading underscore is accepted here and
gated by the callers that forbid it).  Returns the digits with
underscores removed and the remaining characters. -/
def scanDigitsU (isD : Char → Bool) : List Char → (List Char × List Char)
  | [] => ([], [])
  | c :: cs =>
    if isD c then
      let p := scanDigitsU isD cs
      (c :: p.1, p.2)
    else if c = '_' then
      match cs with
      | c2 :: cs2 =>
        if isD c2 then
          let p := scanDigitsU isD cs2
          (c2 :: p.1, p.2)
        else ([], c :: cs)
      | [] => ([], [c])
    else ([], c :: cs)

/-- A digit run with a leading-digit requirement (decimal `digitpart`). -/
def scanDigitsDec (l : List Char) : (List Char × List Char) :=
  match l with
  | c :: _ => if isDigitC c then scanDigitsU isDigitC l else ([], l)
  | [] => ([], [])

def isHexDigitC (c : Char) : Bool :=
  isDigitC c || ('a' ≤ lowerC c && lowerC c ≤ 'f')

def isOctDigitC (c : Char) : Bool := '0' ≤ c && c ≤ '7'

def isBinDigitC (c : Char) : Bool := c = '0' || c = '1'

def hexDigitVal (c : Char) : Nat :=
  if isDigitC c then c.toNat - '0'.toNat
  else (lowerC c).toNat - 'a'.toNat + 10

/-- Digits in a given base to a natural number. -/
def digitsValB (base : Nat) (l : List Char) : Nat :=
  l.foldl (fun n c => n * base + hexDigitVal c) 0

/-- After a numeric literal, an immediately following identifier or
digit character is a tokenizer error (`1x`, `1_`, `0o8`, `1if`). -/
def headIsIdentOrDigit : List Char → Bool
  | [] => false
  | c :: _ => isIdentStart c || isDigitC c

/-- Scan a based literal body after the `0x`/`0o`/`0b` prefix. -/
def scanBased (base : Nat) (isD : Char → Bool) (l : List Char) :
    Except (List Char) (PyFloat × List Char) :=
  let p := scanDigitsU isD l
  if p.1.isEmpty then .error msgBadNum
  else if headIsIdentOrDigit p.2 then .error msgBadNum
  else .ok (pfOfNat (digitsValB base p.1), p.2)

/-- Scan the exponent part of a decimal literal (after `e`/`E`):
optional sign and a mandatory digit-led digit run. -/
def scanExp (base : PyFloat) (r3 : List Char) :
    Except (List Char) (PyFloat × List Char) :=
  let sr : Int × List Char :=
    match r3 with
    | '+' :: t => (1, t)
    | '-' :: t => (-1, t)
    | _ => (1, r3)
  let ep := scanDigitsDec sr.2
  if ep.1.isEmpty then .error msgBadNum
  else if headIsIdentOrDigit ep.2 then .error msgBadNum
  else .ok (pfMul base (pfPowInt (pfOfNat 10) (sr.1 * (digitsVal ep.1 : Int))), ep.2)

/-- Scan a decimal integer or float literal: digit run, optional
fraction, optional exponent, with Python's leading-zero restriction on
plain integer literals. -/
def scanDec (l : List Char) : Except (List Char) (PyFloat × List Char) :=
  let ipp := scanDigitsDec l
  let ip := ipp.1
  let r1 := ipp.2
  let fr : Bool × List Char × List Char :=
    match r1 with
    | '.' :: rr =>
      let fpp := scanDigitsDec rr
      (true, fpp.1, fpp.2)
    | _ => (false, [], r1)
  let hasDot := fr.1
  let fp := fr.2.1
  let r2 := fr.2.2
  let base : PyFloat :=
    pfAdd (pfOfNat (digitsVal ip))
      (pfDiv (pfOfNat (digitsVal fp)) (pfPowNat (pfOfNat 10) fp.length))
  match r2 with
  | 'e' :: r3 => scanExp base r3
  | 'E' :: r3 => scanExp base r3
  | _ =>
    if headIsIdentOrDigit r2 then .error msgBadNum
    else if !hasDot && ip.headD '1' = '0' && ip.any (· ≠ '0') then
      .error msgLeadZero
    else .ok (base, r2)

/-- Scan one numeric literal in any of Python's forms: hex/octal/binary
with `0x`/`0o`/`0b` prefixes, or decimal integer/float with optional
fraction and exponent; single underscores between digits throughout. -/
def scanNum (l : List Char) : Except (List Char) (PyFloat × List Char) :=
  match l with
  | '0' :: x :: rest0 =>
    if x = 'x' || x = 'X' then scanBased 16 isHexDigitC rest0
    else if x = 'o' || x = 'O' then scanBased 8 isOctDigitC rest0
    else if x = 'b' || x = 'B' then scanBased 2 isBinDigitC rest0
    else scanDec l
  | _ => scanDec l

/-- The tokenizer.  Fuel-indexed; `tokenize (l.length + 1) l` always has
enough fuel since every step consumes at least one character. -/
def tokenize : Nat → List Char → Except (List Char) (List Tok)
  | 0, _ => .error msgFuel
  | _ + 1, [] => .ok []
  | f + 1, c :: cs =>
    if isWsC c then tokenize f cs
    else if isDigitC c then
      match scanNum (c :: cs) with
      | .error e => .error e
      | .ok (q, rest) => (tokenize f rest).map (Tok.num q :: ·)
    else if c = '.' then
      match cs with
      | d :: _ =>
        if isDigitC d then
          match scanNum (c :: cs) with
          | .error e => .error e
          | .ok (q, rest) => (tokenize f rest).map (Tok.num q :: ·)
        else .error msgBadChar
      | [] => .error msgBadChar
    else if isIdentStart c then
      let w := (c :: cs).takeWhile isIdentC
      let tok :=
        if w = "True".toList then Tok.kwTrue
        else if w = "False".toList then Tok.kwFalse
        else if w = "None".toList then Tok.kwNone
        else Tok.ident w
      (tokenize f ((c :: cs).dropWhile isIdentC)).map (tok :: ·)
    else if c = '+' then (tokenize f cs).map (Tok.plus :: ·)
    else if c = '-' then (tokenize f cs).map (Tok.minus :: ·)
    else if c = '%' then (tokenize f cs).map (Tok.percent :: ·)
    else if c = '(' then (tokenize f cs).map (Tok.lparen :: ·)
    else if c = ')' then (tokenize f cs).map (Tok.rparen :: ·)
    else if c = ',' then (tokenize f cs).map (Tok.comma :: ·)
    else if c = '*' then
      match cs with
      | '*' :: cs2 => (tokenize f cs2).map (Tok.dstar :: ·)
      | _ => (tokenize f cs).map (Tok.star :: ·)
    else if c = '/' then
      match cs with
      | '/' :: cs2 => (tokenize f cs2).map (Tok.dslash :: ·)
      | _ => (tokenize f cs).map (Tok.slash :: ·)
    else if c = '=' then
      match cs with
      | '=' :: cs2 => (tokenize f cs2).map (Tok.cmpTok "==".toList :: ·)
      | _ => (tokenize f cs).map (Tok.eqTok :: ·)
    else if c = '<' then
      match cs with
      | '=' :: cs2 => (tokenize f cs2).map (Tok.cmpTok "<=".toList :: ·)
      | _ => (tokenize f cs).map (Tok.cmpTok "<".toList :: ·)
    else if c = '>' then
      match cs with
      | '=' :: cs2 => (tokenize f cs2).map (Tok.cmpTok ">=".toList :: ·)
      | _ => (tokenize f cs).map (Tok.cmpTok ">".toList :: ·)
    else if c = '!' then
      match cs with
      | '=' :: cs2 => (tokenize f cs2).map (Tok.cmpTok "!=".toList :: ·)
      | _ => .error msgBadChar
    else if c = dquoteC || c = apoC then
      let body := cs.takeWhile (· ≠ c)
      let rest := cs.dropWhile (· ≠ c)
      match rest with
      | _ :: rest2 => (tokenize f rest2).map (Tok.strlit body :: ·)
      | [] => .error msgUnterminated
    else .error msgBadChar

/-! ## Expression trees and the sandboxed walker (tools.py, `_eval`)

`PyExpr` is the closed set of AST shapes the parser fragment produces;
`Name` stands for any node outside `_eval`'s whitelist (in the source,
identifiers and every other construct fall through to the final
`raise ValueError("Invalid expression.")`). -/

inductive PyConst where
  | num (q : PyFloat)
  | bool (b : Bool)
  | none
  | str (s : List Char)
deriving DecidableEq, Repr

inductive UOp where
  | USub | UAdd
deriving DecidableEq, Repr

inductive BOp where
  | Add | Sub | Mult | Div | Mod | FloorDiv | Pow
deriving DecidableEq, Repr

inductive PyExpr where
  | Constant (c : PyConst)
  | BinOp (l : PyExpr) (op : BOp) (r : PyExpr)
  | UnaryOp (op : UOp) (e : PyExpr)
  | Name (id : List Char)
deriving DecidableEq, Repr

def msgOnlyNumbers : List Char := "Only numbers are allowed.".toList
def msgOpNotAllowed : List Char := "Operation not allowed.".toList
def msgInvalidExpr : List Char := "Invalid expression.".toList
def msgDivZero : List Char := "float division by zero".toList
def msgModZero : List Char := "float modulo".toList
def msgFloorZero : List Char := "float floor division by zero".toList
def msgZeroNegPow : List Char :=
  "0.0 cannot be raised to a negative power".toList
def msgFracPow : List Char :=
  "fractional exponent outside the rational model".toList

/-- Binary operator semantics from `_ALLOWED` (Python float operators
on exact rationals): true division, floor-convention `%` and `//`,
exponentiation restricted to integral exponents. -/
def pyApplyB : BOp → PyFloat → PyFloat → Except (List Char) PyFloat
  | .Add, a, b => .ok (pfAdd a b)
  | .Sub, a, b => .ok (pfSub a b)
  | .Mult, a, b => .ok (pfMul a b)
  | .Div, a, b => if b = pfZero then .error msgDivZero else .ok (pfDiv a b)
  | .Mod, a, b =>
    if b = pfZero then .error msgModZero
    else .ok (pfSub a (pfMul b (pfInt (pfFloor (pfDiv a b)))))
  | .FloorDiv, a, b =>
    if b = pfZero then .error msgFloorZero
    else .ok (pfInt (pfFloor (pfDiv a b)))
  | .Pow, a, b =>
    if b.den = 1 then
      if a = pfZero ∧ b.num < 0 then .error msgZeroNegPow
      else .ok (pfPowInt a b.num)
    else .error msgFracPow

/-- The sandboxed AST walker `_eval`: numeric constants, whitelisted
binary operators and unary negation evaluate; every other construct is
an error.  `UAdd` is absent from `_ALLOWED`, so it errors before its
operand is visited, exactly as in the source. -/
def evalNode : PyExpr → Except (List Char) PyFloat
  | .Constant (.num q) => .ok q
  | .Constant (.bool b) => .ok (pfInt (if b then 1 else 0))
  | .Constant .none => .error msgOnlyNumbers
  | .Constant (.str _) => .error msgOnlyNumbers
  | .BinOp l op r =>
    match evalNode l with
    | .error e => .error e
    | .ok a =>
      match evalNode r with
      | .error e => .error e
      | .ok b => pyApplyB op a b
  | .UnaryOp .USub e =>
    match evalNode e with
    | .error m => .error m
    | .ok a => .ok (pfNeg a)
  | .UnaryOp .UAdd _ => .error msgOpNotAllowed
  | .Name _ => .error msgInvalidExpr

inductive PMode where
  | atom | pw | una | term | termRest (acc : PyExpr)
  | arith | arithRest (acc : PyExpr)
deriving Repr

def parseF : Nat → PMode → List Tok → Except (List Char) (PyExpr × List Tok)
  | 0, _, _ => .error msgFuel
  | f + 1, m, ts =>
    match m with
    | .atom =>
      match ts with
      | .num q :: r => .ok (.Constant (.num q), r)
      | .kwTrue :: r => .ok (.Constant (.bool true), r)
      | .kwFalse :: r => .ok (.Constant (.bool false), r)
      | .kwNone :: r => .ok (.Constant .none, r)
      | .strlit s :: r => .ok (.Constant (.str s), r)
      | .ident s :: r => .ok (.Name s, r)
      | .lparen :: r =>
        match parseF f .arith r with
        | .error e => .error e
        | .ok (e, r1) =>
          match r1 with
          | .rparen :: r2 => .ok (e, r2)
          | _ => .error msgSyntax
      | _ => .error msgSyntax
    | .pw =>
      match parseF f .atom ts with
      | .error e => .error e
      | .ok (a, r1) =>
        match r1 with
        | .dstar :: r2 =>
          match parseF f .una r2 with
          | .error e => .error e
          | .ok (b, r3) => .ok (.BinOp a .Pow b, r3)
        | _ => .ok (a, r1)
    | .una =>
      match ts with
      | .minus :: r =>
        match parseF f .una r with
        | .error e => .error e
        | .ok (e, r1) => .ok (.UnaryOp .USub e, r1)
      | .plus :: r =>
        match parseF f .una r with
        | .error e => .error e
        | .ok (e, r1) => .ok (.UnaryOp .UAdd e, r1)
      | _ => parseF f .pw ts
    | .term =>
      match parseF f .una ts with
      | .error e => .error e
      | .ok (a, r1) => parseF f (.termRest a) r1
    | .termRest a =>
      match ts with
      | .star :: r =>
        match parseF f .una r with
        | .error e => .error e
        | .ok (b, r1) => parseF f (.termRest (.BinOp a .Mult b)) r1
      | .slash :: r =>
        match parseF f .una r with
        | .error e => .error e
        | .ok (b, r1) => parseF f (.termRest (.BinOp a .Div b)) r1
      | .dslash :: r =>
        match parseF f .una r with
        | .error e => .error e
        | .ok (b, r1) => parseF f (.termRest (.BinOp a .FloorDiv b)) r1
      | .percent :: r =>
        match parseF f .una r with
        | .error e => .error e
        | .ok (b, r1) => parseF f (.termRest (.BinOp a .Mod b)) r1
      | _ => .ok (a, ts)
    | .arith =>
      match parseF f .term ts with
      | .error e => .error e
      | .ok (a, r1) => parseF f (.arithRest a) r1
    | .arithRest a =>
      match ts with
      | .plus :: r =>
        match parseF f .term r with
        | .error e => .error e
        | .ok (b, r1) => parseF f (.arithRest (.BinOp a .Add b)) r1
      | .minus :: r =>
        match parseF f .term r with
        | .error e => .error e
        | .ok (b, r1) => parseF f (.arithRest (.BinOp a .Sub b)) r1
      | _ => .ok (a, ts)

/-- Model of `ast.parse(expr, mode="eval").body`: tokenize, parse one
expression, require the whole token stream to be consumed. -/
def pyParseEval (cs : List Char) : Except (List Char) PyExpr :=
  match tokenize (cs.length + 1) cs with
  | .error e => .error e
  | .ok ts =>
    match parseF (8 * ts.length + 8) .arith ts with
    | .error e => .error e
    | .ok (t, []) => .ok t
    | .ok (_, _ :: _) => .error msgSyntax

def digitCh (n : Nat) : Char := Char.ofNat ('0'.toNat + n)

/-- Decimal digits of `n` (most significant first).  The constant fuel
covers any IEEE double magnitude (fewer than 309 decimal digits). -/
def natDigitsF : Nat → Nat → List Char
  | 0, _ => []
  | f + 1, n =>
    if n < 10 then [digitCh n]
    else natDigitsF f (n / 10) ++ [digitCh (n % 10)]

def natDigits (n : Nat) : List Char := natDigitsF 400 n

/-- Model of `str(v)` for an integer-valued float of magnitude at least
`10^16`: Python switches to scientific notation `d[.ddd]e+EE` and prints
the shortest digit string that round-trips.  For values whose exact
decimal digits are that shortest string (every value a claim exercises,
e.g. powers of ten), this is the exact-digit form rendered here: first
digit, remaining digits with trailing zeros stripped, exponent. -/
def pySciStr (n : Int) : List Char :=
  let ds := natDigits n.natAbs
  let tl := ((ds.drop 1).reverse.dropWhile (fun c => c = '0')).reverse
  (if n < 0 then ['-'] else []) ++
    ds.take 1 ++
    (if tl.isEmpty then [] else '.' :: tl) ++
    'e' :: '+' :: natDigits (ds.length - 1)

/-- Model of `str(value)` for the float result: integer-valued floats of
magnitude below `10^16` render as `N.0`; integer-valued floats of
magnitude at least `10^16` render in scientific notation (`str(1e16)`
is `"1e+16"`); non-integral values, which no claim inspects, are
rendered as an exact fraction. -/
def pyFloatStr (q : PyFloat) : List Char :=
  if q.den = 1 then
    if q.num.natAbs < 10 ^ 16 then (toString q.num).toList ++ ".0".toList
    else pySciStr q.num
  else (toString q.num).toList ++ "/".toList ++ (toString q.den).toList

def msgApology : List Char := "Sorry, I couldn".toList ++ [apoC] ++
  "t compute that.".toList

/-- The calculator tool: parse and walk inside a `try`, catching every
failure into an `ok := false` result. -/
def calculator (expr : List Char) : ToolResult :=
  match pyParseEval expr with
  | .error e => ⟨false, msgApology, ⟨"calculator".toList, expr, false, e⟩⟩
  | .ok t =>
    match evalNode t with
    | .error e => ⟨false, msgApology, ⟨"calculator".toList, expr, false, e⟩⟩
    | .ok q =>
      let out := pyFloatStr q
      ⟨true, out, ⟨"calculator".toList, expr, true, out⟩⟩

/-- The clock tool; `datetime.now().strftime(...)` is the `now`
parameter. -/
def clock (now : List Char) : ToolResult :=
  ⟨true, now, ⟨"clock".toList, [], true, now⟩⟩

/-! ## Facts store (tools.py, `FactsStore`)

The Python `Dict[str, str]` is an association list with last-write-wins
update and first-match lookup.  Methods are modelled returning the
(possibly updated) store explicitly. -/

/-- Association-list update: overwrite the first binding of `k`, or
append a new one. -/
def setA : List (List Char × List Char) → List Char → List Char →
    List (List Char × List Char)
  | [], k, v => [(k, v)]
  | (k1, v1) :: t, k, v =>
    if k1 = k then (k, v) :: t else (k1, v1) :: setA t k v

/-- Association-list lookup, first match. -/
def lookupA : List (List Char × List Char) → List Char → Option (List Char)
  | [], _ => none
  | (k1, v1) :: t, k => if k1 = k then some v1 else lookupA t k

structure FactsStore where
  facts : List (List Char × List Char)
deriving DecidableEq, Repr

def msgNotSaved : List Char := "I don".toList ++ [apoC] ++
  "t have that saved yet.".toList

/-- `FactsStore.remember`: normalise the key (strip + lower), strip the
value, store (overwriting), report success. -/
def FactsStore.remember (st : FactsStore) (key value : List Char) :
    FactsStore × ToolResult :=
  let k := normKey key
  let v := trimBoth value
  (⟨setA st.facts k v⟩,
    ⟨true, "Noted.".toList,
      ⟨"facts.remember".toList, k ++ "=".toList ++ v, true, "Saved.".toList⟩⟩)

/-- `FactsStore.recall`: normalise the key, look it up; absence is a
reported (`ok := false`) outcome, never an exception, and the store is
returned unchanged. -/
def FactsStore.recall (st : FactsStore) (key : List Char) :
    FactsStore × ToolResult :=
  let k := normKey key
  match lookupA st.facts k with
  | none =>
    (st, ⟨false, msgNotSaved, ⟨"facts.recall".toList, k, false, "Not found.".toList⟩⟩)
  | some v =>
    (st, ⟨true, v, ⟨"facts.recall".toList, k, true, v⟩⟩)

/-! ## Routing-rule predicates (agent.py)

Each regex of the router is modelled by a function whose behaviour on
the matched utterance agrees with Python's `re` semantics (including the
greedy/lazy backtracking order of the capture groups, derived in the
comments below). -/

/-- Regex word boundary after a matched literal: the next character, if
any, is not a word character. -/
def boundaryOk : List Char → Bool
  | [] => true
  | c :: _ => !isWordC c

/-- The literal `w` matches here, followed by a `\b` boundary. -/
def wordAt (w : List Char) (cs : List Char) : Bool :=
  w.isPrefixOf cs && boundaryOk (cs.drop w.length)

/-- `_is_greeting`: `^\s*(hi|hello|hey|hola|namaste|good\s*(morning|afternoon|evening)?)\b`
with `re.I`.  For the `good` alternative, the optional group may be
empty (then `\b` applies right after `good`) or consume `\s*` plus one
of the three words. -/
def isGreeting (u : List Char) : Bool :=
  let cs := (u.dropWhile isWsC).map lowerC
  wordAt "hi".toList cs || wordAt "hello".toList cs ||
  wordAt "hey".toList cs || wordAt "hola".toList cs ||
  wordAt "namaste".toList cs ||
  ("good".toList.isPrefixOf cs &&
    (boundaryOk (cs.drop 4) ||
      (let r := (cs.drop 4).dropWhile isWsC
       wordAt "morning".toList r || wordAt "afternoon".toList r ||
       wordAt "evening".toList r)))

/-- Scan for any of the literals with `\b` boundaries on both sides,
anywhere in the (already lowercased) text; `prevW` records whether the
previous character was a word character. -/
def scanWords (ws : List (List Char)) : Bool → List Char → Bool
  | _, [] => false
  | prevW, c :: rest =>
    (!prevW && ws.any (fun w => wordAt w (c :: rest))) ||
    scanWords ws (isWordC c) rest

/-- `re.search(pat, u, re.I)` for an alternation of word-bounded
literals. -/
def containsWordIn (ws : List (List Char)) (u : List Char) : Bool :=
  scanWords ws false (u.map lowerC)

/-- Rule 3's test: `re.search(r"\b(time|date|now)\b", user, re.I)`. -/
def containsTimeWord (u : List Char) : Bool :=
  containsWordIn ["time".toList, "date".toList, "now".toList] u

/-- `_is_followup`: `\b(explain (this|that)|in brief|briefly|why|how so)\b`. -/
def isFollowup (u : List Char) : Bool :=
  containsWordIn ["explain this".toList, "explain that".toList,
    "in brief".toList, "briefly".toList, "why".toList, "how so".toList] u

/-- Case-insensitive literal keyword strip: if the lowercased text
starts with `kw` (itself lowercase), return the remainder. -/
def ciStrip (kw : List Char) (cs : List Char) : Option (List Char) :=
  if (cs.take kw.length).map lowerC = kw then some (cs.drop kw.length)
  else none

/-- No newline among the characters (the regex `.` does not match
`'\n'`, while `\s` does). -/
def noNL (l : List Char) : Bool := l.all (fun c => c ≠ '\n')

/-- Whether a lazy `(.+?)` group bracketed by whitespace quantifiers can
cover the region `r` (the trailing `\s*` together with `$`, which also
matches just before a final newline, absorbs any trailing whitespace):
if the region has a non-whitespace core, the group must span exactly
that core, so the core must be free of newlines; if the region is all
whitespace, the group needs one whitespace character that is not a
newline. -/
def okCapture (r : List Char) : Bool :=
  if (trimBoth r).isEmpty then r.any (fun c => c ≠ '\n')
  else noNL (trimBoth r)

/-- The backtracking search for the `'='` matched by `\s+(.+?)\s*=`:
the first index `j ≥ 1` (the scan starts on `m.drop 1`, so `j` counts
from 1) holding `'='` such that the key region before it has a
newline-free core and the region after it admits the value group.  `m`
begins at the first non-whitespace character after the keyword, where
the greedy `\s+` ends on its first (longest) attempt. -/
def remScan (m : List Char) : Nat → List Char → Option Nat
  | _, [] => none
  | j, c :: tail =>
    if c = '=' then
      if noNL (trimBoth (m.take j)) && okCapture tail then some j
      else remScan m (j + 1) tail
    else remScan m (j + 1) tail

/-- Rule 1's match after the keyword has been stripped: `rest` is what
follows `(remember|save)`; it must start with a whitespace character
(for `\s+`).  Derived backtracking order (verified against CPython
`re`): the greedy `\s+` first takes the whole whitespace run `w`, so
the lazy key group starts at the first non-whitespace character `m0` and
grows until an `'='` preceded only by trailing whitespace is found whose
right side admits the value group — the key may itself contain `'='`
characters (`"remember = x = y"` captures key `"= x"`).  Only if that
search fails does `\s+` backtrack, allowing an all-whitespace key
directly before an `'='` at `m0` (which needs a second, non-newline
whitespace character inside `w`).  The returned key and value carry
their surrounding whitespace; the facts store's strip/lower
normalisation erases the difference with the regex's trimmed capture
groups. -/
def remCore (w m : List Char) : Option (List Char × List Char) :=
  match m with
  | [] => none
  | m0 :: mtail =>
    match remScan m 1 mtail with
    | some j => some (w ++ m.take j, m.drop (j + 1))
    | none =>
      if m0 = '=' then
        if okCapture (w.drop 1) && okCapture mtail then some (w, mtail)
        else none
      else none

def remBody (rest : List Char) : Option (List Char × List Char) :=
  match rest with
  | [] => none
  | c :: _ =>
    if !isWsC c then none
    else remCore (rest.takeWhile isWsC) (rest.dropWhile isWsC)

/-- Rule 1's match: `^\s*(remember|save)\s+(.+?)\s*=\s*(.+?)\s*$` with
`re.I`. -/
def matchRemember (u : List Char) : Option (List Char × List Char) :=
  let s := u.dropWhile isWsC
  let rest? : Option (List Char) :=
    match ciStrip "remember".toList s with
    | some r => some r
    | none => ciStrip "save".toList s
  match rest? with
  | none => none
  | some rest => remBody rest

/-- Rule 2's match: `^\s*(recall|what did i save for)\s+(.+?)\s*$` with
`re.I`.  After the keyword there must be a whitespace character (for
`\s+`) and the remainder must admit the lazy key group (`okCapture`);
the raw remainder is returned and normalised by the store. -/
def matchRecall (u : List Char) : Option (List Char) :=
  let s := u.dropWhile isWsC
  let rest? : Option (List Char) :=
    match ciStrip "recall".toList s with
    | some r => some r
    | none => ciStrip "what did i save for".toList s
  match rest? with
  | some (c :: ctail) =>
    if isWsC c && okCapture ctail then some (c :: ctail) else none
  | _ => none

/-- Character class of the bare-expression shortcut
`^[\d\.\s\+\-\*\/\(\)\%]+$`. -/
def isBareC (c : Char) : Bool :=
  isDigitC c || c = '.' || isWsC c || c = '+' || c = '-' || c = '*' ||
  c = '/' || c = '(' || c = ')' || c = '%'

/-- Rule 4's extraction of the `calculate <expr>` form:
`^\s*calculate\s+(.+)$` with `re.I`.  `.` does not match `'\n'` and `$`
also matches just before a final newline, so the region after the
keyword must contain no interior newline; `\s+` is greedy, backing off
to a single whitespace character when the remainder would otherwise be
empty. -/
def matchCalcKw (u : List Char) : Option (List Char) :=
  let s := u.dropWhile isWsC
  match ciStrip "calculate".toList s with
  | none => none
  | some rest =>
    match rest with
    | [] => none
    | c :: _ =>
      if !isWsC c then none
      else
        let core := if rest.getLast? = some '\n' then rest.dropLast else rest
        if core.any (· = '\n') then none
        else
          let g := core.dropWhile isWsC
          if !g.isEmpty then some g
          else if 2 ≤ core.length then some (core.drop (core.length - 1))
          else none

/-- Rule 4's expression choice: the `calculate` capture, else the whole
stripped utterance when every character is in the bare class (and the
utterance is non-empty). -/
def exprOf (u : List Char) : Option (List Char) :=
  match matchCalcKw u with
  | some g => some g
  | none =>
    if !u.isEmpty && u.all isBareC then some (trimBoth u) else none

/-! ## The router (agent.py, `ReasoningAgent.chat`) -/

structure Turn where
  role : List Char
  content : List Char
deriving DecidableEq, Repr

structure AgentReply where
  text : List Char
  tool_events : List ToolEvent
deriving DecidableEq, Repr

/-- The opaque generative delegate `_openai_reply`: `none` models every
"unavailable" outcome (no key, transport failure, timeout). -/
abbrev AiFn := List Char → List Turn → Option (List Char)

/-- The always-unavailable delegate. -/
def aiNone : AiFn := fun _ _ => none

/-- Python's `x or d` for an optional string: `none` and the empty
string are falsy. -/
def pyOr (o : Option (List Char)) (d : List Char) : List Char :=
  match o with
  | some s => if s.isEmpty then d else s
  | none => d

/-- Python's `if x:` for an optional string. -/
def pyTruthy (o : Option (List Char)) : Bool :=
  match o with
  | some s => !s.isEmpty
  | none => false

/-- `_last_assistant_text` / `_last_user_text`: scan history from the
most recent turn backwards for the first turn of the role with truthy
content. -/
def lastRoleText (role : List Char) (h : List Turn) : Option (List Char) :=
  (h.reverse.find? (fun t => t.role == role && !t.content.isEmpty)).map
    (·.content)

def msgRepeat : List Char :=
  "I can explain — could you repeat the part you want clarified?".toList

def msgFollows : List Char :=
  "Briefly: it follows from the previous result.".toList

/-- `_local_brief_explanation`. -/
def localBriefExplanation (prevAnswer : List Char)
    (prevUser : Option (List Char)) : List Char :=
  if prevAnswer.isEmpty then msgRepeat
  else if prevAnswer.length ≤ 160 && prevAnswer.count '.' ≤ 1 then
    "In short: ".toList ++ prevAnswer
  else
    let sent := trimBoth (prevAnswer.takeWhile (· ≠ '.'))
    if sent.isEmpty then msgFollows
    else
      match prevUser with
      | none => "Briefly: ".toList ++ sent ++ ".".toList
      | some pu =>
        if pu.isEmpty then "Briefly: ".toList ++ sent ++ ".".toList
        else
          "Briefly: ".toList ++ sent ++
          ". (Related to your earlier message: “".toList ++ pu ++ "”.)".toList

def staticGreet : List Char :=
  "Hello! I remember this session. Ask me anything, or say “help” to see capabilities.".toList

def msgSaved : List Char := "Got it — I saved that.".toList

def msgCalcFail : List Char :=
  "That expression didn".toList ++ [apoC] ++ "t work for me.".toList

def staticFallback : List Char :=
  ("I keep our chat in memory for this session. I can do quick math (e.g., `12*(3+4)`), " ++
   "tell the time, remember simple facts (e.g., `remember project = Apollo` → `recall project`), " ++
   "and handle follow-ups like “explain this in brief?”. For richer chat, set OPENAI_API_KEY " ++
   "in a .env file.").toList

/-- The follow-up prompt string built for the delegate. -/
def followupPrompt (user prevAnswer : List Char) : List Char :=
  user ++ "\n\nContext:\nPrevious answer: ".toList ++ prevAnswer

/-- Rules 5 and 6 (follow-up clarification, then the general fallback),
shared tail of the routing cascade. -/
def chatTail (ai : AiFn) (st : FactsStore) (user : List Char)
    (history : List Turn) : FactsStore × AgentReply :=
  if isFollowup user then
    let prevAnswer := (lastRoleText "assistant".toList history).getD []
    let prevUser := lastRoleText "user".toList history
    let a := ai (followupPrompt user prevAnswer) history
    if pyTruthy a then (st, ⟨a.getD [], []⟩)
    else (st, ⟨localBriefExplanation prevAnswer prevUser, []⟩)
  else
    let a := ai user history
    if pyTruthy a then (st, ⟨a.getD [], []⟩)
    else (st, ⟨staticFallback, []⟩)

/-- `ReasoningAgent.chat`: the ordered, first-match-wins routing
cascade.  The store is threaded explicitly (`self.facts`); `ai` models
`self._openai_reply` and `now` the formatted clock reading. -/
def chat (ai : AiFn) (now : List Char) (st : FactsStore) (user : List Char)
    (history : List Turn) : FactsStore × AgentReply :=
  if isGreeting user then
    (st, ⟨pyOr (ai user history) staticGreet, []⟩)
  else
    match matchRemember user with
    | some kv =>
      let r := st.remember kv.1 kv.2
      (r.1, ⟨msgSaved, [r.2.event]⟩)
    | none =>
      match matchRecall user with
      | some key =>
        let r := st.recall key
        (r.1, ⟨(if r.2.ok then r.2.content else msgNotSaved), [r.2.event]⟩)
      | none =>
        if containsTimeWord user then
          let r := clock now
          (st, ⟨"The time is ".toList ++ r.content ++ ".".toList, [r.event]⟩)
        else
          match exprOf user with
          | some e =>
            if !e.isEmpty then
              let r := calculator e
              (st, ⟨(if r.ok then r.content else msgCalcFail), [r.event]⟩)
            else chatTail ai st user history
          | none => chatTail ai st user history

/-- The seven handling paths of the router. -/
inductive Route where
  | greeting | memwrite | memread | time | calc | followup | fallback
deriving DecidableEq, Repr

/-- The classification decision of `chat`, rule by rule in source
order. -/
def routeOf (u : List Char) : Route :=
  if isGreeting u then .greeting
  else
    match matchRemember u with
    | some _ => .memwrite
    | none =>
      match matchRecall u with
      | some _ => .memread
      | none =>
        if containsTimeWord u then .time
        else
          match exprOf u with
          | some e =>
            if !e.isEmpty then .calc
            else if isFollowup u then .followup else .fallback
          | none => if isFollowup u then .followup else .fallback

/-! ## Soundness of the sandbox

The chain behind claim C1: a successful evaluation forces a tree built
only from whitelisted constructs, and a successful full parse of such a
tree consumes no non-arithmetic token, so an input containing any
non-arithmetic token can never reach a successful result. -/

theorem lookupA_setA : ∀ (l : List (List Char × List Char)) (k v k2 : List Char),
    lookupA (setA l k v) k2 = if k2 = k then some v else lookupA l k2 := by
  intro l k v
  induction l with
  | nil =>
    intro k2
    by_cases h : k2 = k
    · subst h; simp [setA, lookupA]
    · have hs : ¬ k = k2 := fun h2 => h h2.symm
      simp [setA, lookupA, h, hs]
  | cons p t ih =>
    obtain ⟨k1, v1⟩ := p
    intro k2
    by_cases h1 : k1 = k
    · subst h1
      by_cases h2 : k1 = k2
      · subst h2
        simp [setA, lookupA]
      · have h2s : ¬ k2 = k1 := fun h3 => h2 h3.symm
        simp [setA, lookupA, h2, h2s]
    · by_cases h2 : k1 = k2
      · subst h2
        simp [setA, lookupA, h1]
      · have h2s : ¬ k2 = k1 := fun h3 => h2 h3.symm
        simp [setA, lookupA, h1, h2, h2s, ih k2]

/-! ## Claim theorems -/

/-- C4: writing `(k, v)` and then reading any normalization-equivalent
key `k2` (equal after trimming and lowercasing) returns the trimmed `v`
with `ok = true`; writing the same normalized key twice leaves only the
latest value readable. -/
theorem c4_store_roundtrip (st : FactsStore) (k v k2 : List Char)
    (h : normKey k2 = normKey k) :
    ((st.remember k v).1.recall k2).2 =
      ⟨true, trimBoth v, ⟨"facts.recall".toList, normKey k, true, trimBoth v⟩⟩ ∧
    ∀ v2, (((st.remember k v).1.remember k2 v2).1.recall k).2.content =
      trimBoth v2 := by
  constructor
  · simp [FactsStore.remember, FactsStore.recall, h, lookupA_setA]
  · intro v2
    simp [FactsStore.remember, FactsStore.recall, h, lookupA_setA]

/-- Witness for C4: `"Project"` written, `" project "` read back. -/
theorem c4_store_roundtrip_witness :
    (((FactsStore.mk []).remember "Project".toList "Apollo".toList).1.recall
        " project ".toList).2 =
      ⟨true, "Apollo".toList,
        ⟨"facts.recall".toList, "project".toList, true, "Apollo".toList⟩⟩ :=
  (c4_store_roundtrip ⟨[]⟩ "Project".toList "Apollo".toList
    " project ".toList rfl).1

/-- C7: for every key absent from the store, `recall` never raises (it
is a total function), returns the fixed `ok = false` "not found"
outcome, and leaves the store unchanged; repeated calls are therefore
idempotent and never mutate store state. -/
theorem c7_recall_missing_key (st : FactsStore) (k : List Char)
    (h : lookupA st.facts (normKey k) = none) :
    st.recall k = (st, ⟨false, msgNotSaved,
      ⟨"facts.recall".toList, normKey k, false, "Not found.".toList⟩⟩) := by
  simp [FactsStore.recall, h]

/-- Witness for C7 at the empty store and key `"mission"`. -/
theorem c7_recall_missing_key_witness :
    (FactsStore.mk []).recall "mission".toList =
      (⟨[]⟩, ⟨false, msgNotSaved,
        ⟨"facts.recall".toList, "mission".toList, false,
          "Not found.".toList⟩⟩) :=
  c7_recall_missing_key ⟨[]⟩ "mission".toList rfl

/-- Substring test (used to state that a reply text does not contain a
given digit string). -/
def containsSub (pat : List Char) : List Char → Bool
  | [] => pat.isEmpty
  | c :: rest => pat.isPrefixOf (c :: rest) || containsSub pat rest

/-- C5 (counterexample): the claim expects the reply for `"12*(3+4)"` to
be the `"49"`-derived numeric text, but `12*(3+4) = 84`: the reply text
is `"84.0"` and contains no `"49"`. -/
theorem c5_bare_expression_counterexample :
    (chat aiNone "T".toList ⟨[]⟩ "12*(3+4)".toList []).2.text = "84.0".toList ∧
    containsSub "49".toList
      ((chat aiNone "T".toList ⟨[]⟩ "12*(3+4)".toList []).2.text) = false := by
  exact ⟨rfl, rfl⟩

/-- C5 (amended): for every router state (store, delegate, clock,
history), handling `"12*(3+4)"` produces the numeric reply text
`"84.0"` with no errors and exactly one ToolEvent, named for the
arithmetic tool, with `ok = true` and output `"84.0"`. -/
theorem c5_bare_expression_routes_to_calculator (ai : AiFn) (now : List Char)
    (st : FactsStore) (hist : List Turn) :
    chat ai now st "12*(3+4)".toList hist =
      (st, ⟨"84.0".toList,
        [⟨"calculator".toList, "12*(3+4)".toList, true, "84.0".toList⟩]⟩) := by
  rfl

/-- C6 (violation): after `"remember k = "` (whose lazily captured value
strips to the empty string) the store holds an empty value for `"k"`,
and `"recall k"` then returns a Reply whose text is empty — the
"Reply.text is always non-empty" invariant fails on this reachable
state. -/
theorem c6_empty_reply_text_violation :
    (chat aiNone "T".toList ⟨[]⟩ "remember k = ".toList []).1 =
      ⟨[("k".toList, [])]⟩ ∧
    (chat aiNone "T".toList
        (chat aiNone "T".toList ⟨[]⟩ "remember k = ".toList []).1
        "recall k".toList []).2.text = [] := by
  exact ⟨rfl, rfl⟩

/-- C3 (counterexample): the claim says every utterance containing the
whole word "time" is dispatched to the clock capability, but the
greeting rule is checked first: `"hi time"` contains the word "time"
yet routes to the greeting path and fires no tool at all. -/
theorem c3_time_word_counterexample :
    containsTimeWord "hi time".toList = true ∧
    routeOf "hi time".toList = Route.greeting ∧
    (chat aiNone "T".toList ⟨[]⟩ "hi time".toList []).2.tool_events = [] := by
  exact ⟨rfl, rfl, rfl⟩

/-- C3 (amended): routing is a deterministic function of the utterance,
and an utterance containing the whole word "time", "date" or "now"
(case-insensitive) is never dispatched to the arithmetic evaluator —
the time rule precedes the calculator rule — and is dispatched to the
clock capability whenever no earlier rule (greeting, memory write,
memory read) matches; correspondingly, no ToolEvent of such a chat turn
is ever named "calculator". -/
theorem c3_time_routing (u : List Char) (h : containsTimeWord u = true) :
    routeOf u ≠ Route.calc ∧
    (isGreeting u = false → matchRemember u = none → matchRecall u = none →
      routeOf u = Route.time) ∧
    ∀ (ai : AiFn) (now : List Char) (st : FactsStore) (hist : List Turn)
      (e : ToolEvent), e ∈ (chat ai now st u hist).2.tool_events →
      e.name ≠ "calculator".toList := by
  refine ⟨?_, ?_, ?_⟩
  · unfold routeOf
    by_cases hg : isGreeting u
    · simp [hg]
    · simp only [Bool.not_eq_true] at hg
      simp only [hg, Bool.false_eq_true, if_false]
      cases matchRemember u
      · cases matchRecall u
        · simp [h]
        · simp
      · simp
  · intro hg hrem hrec
    unfold routeOf
    simp [hg, hrem, hrec, h]
  · intro ai now st hist e he
    unfold chat at he
    by_cases hg : isGreeting u
    · simp [hg] at he
    · simp only [Bool.not_eq_true] at hg
      simp only [hg, Bool.false_eq_true, if_false] at he
      cases hrem : matchRemember u with
      | some kv =>
        rw [hrem] at he
        simp [FactsStore.remember] at he
        subst he
        simp
      | none =>
        rw [hrem] at he
        simp only at he
        cases hrec : matchRecall u with
        | some key =>
          rw [hrec] at he
          simp only at he
          cases hl : lookupA st.facts (normKey key) with
          | none =>
            simp [FactsStore.recall, hl] at he
            subst he
            simp
          | some v =>
            simp [FactsStore.recall, hl] at he
            subst he
            simp
        | none =>
          rw [hrec] at he
          simp only [h] at he
          simp [clock] at he
          subst he
          simp

/-- Witness for C3: `"what time is it"` contains the word "time", no
earlier rule matches, and the route is the clock capability. -/
theorem c3_time_routing_witness :
    containsTimeWord "what time is it".toList = true ∧
    routeOf "what time is it".toList = Route.time :=
  ⟨rfl, (c3_time_routing "what time is it".toList rfl).2.1 rfl rfl rfl⟩

/-- C8: when the generative delegate yields nothing, the follow-up path
computes its reply by the local heuristic: with no prior assistant turn
it asks to repeat the point; with a short prior answer (length ≤ 160, at
most one `'.'`) it replies `"In short: "` plus the full prior answer;
otherwise it replies `"Briefly: "` plus the text up to the first `'.'`
(or a generic statement if that extraction is empty), citing the most
recent user turn when present; and concretely, `"explain this briefly"`
against the history `[user "12*3", assistant "The result is 36."]` with
the delegate unavailable yields the reply text
`"In short: The result is 36."`. -/
theorem c8_followup_local_heuristic :
    (∀ pu, localBriefExplanation [] pu = msgRepeat) ∧
    (∀ pa pu, pa ≠ [] → pa.length ≤ 160 → pa.count '.' ≤ 1 →
      localBriefExplanation pa pu = "In short: ".toList ++ pa) ∧
    (∀ pa pu, pa ≠ [] → ¬(pa.length ≤ 160 ∧ pa.count '.' ≤ 1) →
      trimBoth (pa.takeWhile (· ≠ '.')) = [] →
      localBriefExplanation pa pu = msgFollows) ∧
    (∀ pa, pa ≠ [] → ¬(pa.length ≤ 160 ∧ pa.count '.' ≤ 1) →
      trimBoth (pa.takeWhile (· ≠ '.')) ≠ [] →
      localBriefExplanation pa none =
        "Briefly: ".toList ++ trimBoth (pa.takeWhile (· ≠ '.')) ++ ".".toList) ∧
    (∀ pa pu2, pa ≠ [] → ¬(pa.length ≤ 160 ∧ pa.count '.' ≤ 1) →
      trimBoth (pa.takeWhile (· ≠ '.')) ≠ [] → pu2 ≠ [] →
      localBriefExplanation pa (some pu2) =
        "Briefly: ".toList ++ trimBoth (pa.takeWhile (· ≠ '.')) ++
        ". (Related to your earlier message: “".toList ++ pu2 ++ "”.)".toList) ∧
    (∀ (now : List Char) (st : FactsStore),
      chat aiNone now st "explain this briefly".toList
        [⟨"user".toList, "12*3".toList⟩,
         ⟨"assistant".toList, "The result is 36.".toList⟩] =
        (st, ⟨"In short: The result is 36.".toList, []⟩)) := by
  refine ⟨?_, ?_, ?_, ?_, ?_, ?_⟩
  · intro pu; rfl
  · intro pa pu hne hlen hcount
    rw [localBriefExplanation]
    rw [if_neg (by simp [hne]), if_pos (by simp [hlen, hcount])]
  · intro pa pu hne hshort hsent
    rw [localBriefExplanation]
    rw [if_neg (by simp [hne]), if_neg (by simpa using hshort)]
    dsimp only
    rw [if_pos (by rw [hsent]; rfl)]
  · intro pa hne hshort hsent
    rw [localBriefExplanation]
    rw [if_neg (by simp [hne]), if_neg (by simpa using hshort)]
    dsimp only
    rw [if_neg (fun hh => hsent (List.isEmpty_iff.mp hh))]
  · intro pa pu2 hne hshort hsent hpu
    rw [localBriefExplanation]
    rw [if_neg (by simp [hne]), if_neg (by simpa using hshort)]
    dsimp only
    rw [if_neg (fun hh => hsent (List.isEmpty_iff.mp hh)),
      if_neg (fun hh => hpu (List.isEmpty_iff.mp hh))]
  · intro now st; rfl

/-- Witness for C8: the short-answer branch applied at the scenario's
prior answer. -/
theorem c8_followup_local_heuristic_witness :
    localBriefExplanation "The result is 36.".toList (some "12*3".toList) =
      "In short: The result is 36.".toList :=
  c8_followup_local_heuristic.2.1 "The result is 36.".toList
    (some "12*3".toList) (by decide) (by decide) (by decide)

/-! ## Lemmas about the memory-write split -/

theorem mem_trimBoth {x : Char} {l : List Char} (h : x ∈ trimBoth l) :
    x ∈ l := by
  unfold trimBoth at h
  rw [List.mem_reverse] at h
  have h2 := (List.dropWhile_sublist isWsC).subset h
  rw [List.mem_reverse] at h2
  exact (List.dropWhile_sublist isWsC).subset h2

theorem trimBoth_cons_ws (c : Char) (l : List Char) (h : isWsC c = true) :
    trimBoth (c :: l) = trimBoth l := by
  simp [trimBoth, List.dropWhile_cons, h]

theorem trimBoth_append_ws (l : List Char) :
    trimBoth (l ++ [' ']) = trimBoth l := by
  unfold trimBoth
  rw [List.dropWhile_append]
  by_cases h : (l.dropWhile isWsC).isEmpty
  · rw [if_pos h]
    rw [List.isEmpty_iff] at h
    rw [h]
    rfl
  · rw [if_neg h, List.reverse_append]
    rfl

theorem remScan_skip (m : List Char) : ∀ (s : List Char) (j : Nat)
    (r : List Char), '=' ∉ s →
    remScan m j (s ++ r) = remScan m (j + s.length) r := by
  intro s
  induction s with
  | nil => intro j r _; simp
  | cons x xs ih =>
    intro j r h
    have hx : ¬ x = '=' := fun hx => h (hx ▸ List.mem_cons_self x xs)
    have h1 : remScan m j ((x :: xs) ++ r) = remScan m (j + 1) (xs ++ r) := by
      rw [List.cons_append, remScan]
      rw [if_neg hx]
    rw [h1, ih (j + 1) r (fun hm => h (List.mem_cons_of_mem x hm))]
    have h2 : j + 1 + xs.length = j + (x :: xs).length := by
      simp only [List.length_cons]
      omega
    rw [h2]

theorem dropWhile_ne_nil_of_any (p : Char → Bool) (l : List Char)
    (h : l.any (fun c => !p c) = true) : l.dropWhile p ≠ [] := by
  intro hnil
  rw [List.dropWhile_eq_nil_iff] at hnil
  obtain ⟨x, hx, hpx⟩ := List.any_eq_true.mp h
  have h2 := hnil x hx
  simp [h2] at hpx

theorem takeWhile_append_of_break (p : Char → Bool) : ∀ (l r : List Char),
    l.dropWhile p ≠ [] → (l ++ r).takeWhile p = l.takeWhile p := by
  intro l
  induction l with
  | nil => intro r h; simp [List.dropWhile] at h
  | cons x xs ih =>
    intro r h
    by_cases hx : p x = true
    · rw [List.cons_append, List.takeWhile_cons, List.takeWhile_cons,
        if_pos hx, if_pos hx]
      rw [List.dropWhile_cons, if_pos hx] at h
      rw [ih r h]
    · rw [List.cons_append, List.takeWhile_cons, List.takeWhile_cons,
        if_neg hx, if_neg hx]

theorem dropWhile_append_of_break (p : Char → Bool) (l r : List Char)
    (h : l.dropWhile p ≠ []) :
    (l ++ r).dropWhile p = l.dropWhile p ++ r := by
  rw [List.dropWhile_append, if_neg (by simpa [List.isEmpty_iff] using h)]

theorem all_ws_of_trimBoth_eq_nil (l : List Char) (h : trimBoth l = []) :
    ∀ x ∈ l, isWsC x = true := by
  intro x hx
  unfold trimBoth at h
  rw [List.reverse_eq_nil_iff, List.dropWhile_eq_nil_iff] at h
  have hsplit : x ∈ l.takeWhile isWsC ++ l.dropWhile isWsC := by
    rw [List.takeWhile_append_dropWhile]; exact hx
  rcases List.mem_append.mp hsplit with h1 | h1
  · exact List.mem_takeWhile_imp h1
  · exact h x (List.mem_reverse.mpr h1)

theorem trimBoth_ne_nil (l : List Char) (x : Char) (hx : x ∈ l)
    (hw : isWsC x = false) : trimBoth l ≠ [] := by
  intro h
  have h2 := all_ws_of_trimBoth_eq_nil l h x hx
  rw [hw] at h2
  exact Bool.false_ne_true h2

theorem noNL_iff (l : List Char) : noNL l = true ↔ '\n' ∉ l := by
  unfold noNL
  rw [List.all_eq_true]
  constructor
  · intro h hmem
    have h2 := h _ hmem
    simp at h2
  · intro h x hx
    simp only [ne_eq, decide_eq_true_eq]
    exact fun he => h (he ▸ hx)

/-- The shape of the rule-1 match for a `remember <a> = <b> = <c>`
utterance whose `<a>` contains no `'='` and no newline and has a
non-whitespace character, and whose `<b>` and `<c>` are newline-free:
the captured key region is everything before the first `'='` and the
captured value region is everything after it. -/
theorem matchRemember_shape (a b c : List Char) (ha : '=' ∉ a)
    (han : a.any (fun x => !isWsC x) = true) (hna : '\n' ∉ a)
    (hnb : '\n' ∉ b) (hnc : '\n' ∉ c) :
    matchRemember ("remember ".toList ++ a ++ " = ".toList ++ b ++
        " = ".toList ++ c) =
      some (' ' :: (a ++ [' ']), ' ' :: (b ++ (' ' :: '=' :: ' ' :: c))) := by
  have hu : "remember ".toList ++ a ++ " = ".toList ++ b ++ " = ".toList ++ c =
      'r' :: 'e' :: 'm' :: 'e' :: 'm' :: 'b' :: 'e' :: 'r' :: ' ' ::
        (a ++ (' ' :: '=' :: ' ' :: (b ++ (' ' :: '=' :: ' ' :: c)))) := by
    simp
  rw [hu]
  show remBody (' ' :: (a ++ (' ' :: '=' :: ' ' ::
      (b ++ (' ' :: '=' :: ' ' :: c))))) = _
  set Q := b ++ (' ' :: '=' :: ' ' :: c) with hQ
  have ha1 : a.dropWhile isWsC ≠ [] := dropWhile_ne_nil_of_any isWsC a han
  obtain ⟨ah, at1, heq⟩ := List.exists_cons_of_ne_nil ha1
  have hsubA : ∀ x, x ∈ at1 → x ∈ a := by
    intro x hx
    have h1 : x ∈ a.dropWhile isWsC := by
      rw [heq]; exact List.mem_cons_of_mem ah hx
    exact (List.dropWhile_sublist isWsC).subset h1
  have hsub : '=' ∉ at1 ++ [' '] := by
    intro hmem
    rcases List.mem_append.mp hmem with h1 | h1
    · exact ha (hsubA _ h1)
    · simp at h1
  have hnoNL : noNL (trimBoth (ah :: at1)) = true := by
    rw [noNL_iff]
    intro hmem
    have h1 : ('\n') ∈ a.dropWhile isWsC := by
      rw [heq]; exact mem_trimBoth hmem
    exact hna ((List.dropWhile_sublist isWsC).subset h1)
  have hok : okCapture (' ' :: Q) = true := by
    have h1 : trimBoth (' ' :: Q) = trimBoth Q := trimBoth_cons_ws ' ' Q (by decide)
    have h2 : trimBoth Q ≠ [] := trimBoth_ne_nil Q '=' (by simp [hQ]) (by decide)
    have h3 : noNL (trimBoth Q) = true := by
      rw [noNL_iff]
      intro hmem
      have h4 := mem_trimBoth hmem
      rw [hQ] at h4
      rcases List.mem_append.mp h4 with h5 | h5
      · exact hnb h5
      · simp at h5
        exact hnc h5
    unfold okCapture
    rw [h1, if_neg (by simpa [List.isEmpty_iff] using h2)]
    exact h3
  have htake : (ah :: (at1 ++ (' ' :: '=' :: ' ' :: Q))).take
      (at1.length + 2) = (ah :: at1) ++ [' '] := by
    rw [List.take_succ_cons]
    have hsplit2 : at1 ++ (' ' :: '=' :: ' ' :: Q) =
        (at1 ++ [' ']) ++ ('=' :: ' ' :: Q) := by simp
    rw [hsplit2, List.take_left' (by simp)]
    rfl
  have hdrop : (ah :: (at1 ++ (' ' :: '=' :: ' ' :: Q))).drop
      (at1.length + 2 + 1) = ' ' :: Q := by
    have hsplit3 : ah :: (at1 ++ (' ' :: '=' :: ' ' :: Q)) =
        ((ah :: at1) ++ [' ', '=']) ++ (' ' :: Q) := by simp
    rw [hsplit3]
    exact List.drop_left' (by simp)
  have hscan : remScan (ah :: (at1 ++ (' ' :: '=' :: ' ' :: Q))) 1
      (at1 ++ (' ' :: '=' :: ' ' :: Q)) = some (at1.length + 2) := by
    have hstep := remScan_skip (ah :: (at1 ++ (' ' :: '=' :: ' ' :: Q)))
      (at1 ++ [' ']) 1 ('=' :: ' ' :: Q) hsub
    have harg : (at1 ++ [' ']) ++ ('=' :: ' ' :: Q) =
        at1 ++ (' ' :: '=' :: ' ' :: Q) := by simp
    rw [harg] at hstep
    have hlen : 1 + (at1 ++ [' ']).length = at1.length + 2 := by
      simp only [List.length_append, List.length_cons, List.length_nil]
      omega
    rw [hlen] at hstep
    rw [hstep, remScan]
    rw [if_pos rfl, if_pos (by rw [htake, trimBoth_append_ws, hnoNL, hok]; rfl)]
  show remCore ((' ' :: (a ++ (' ' :: '=' :: ' ' :: Q))).takeWhile isWsC)
    ((' ' :: (a ++ (' ' :: '=' :: ' ' :: Q))).dropWhile isWsC) = _
  have hdw : (' ' :: (a ++ (' ' :: '=' :: ' ' :: Q))).dropWhile isWsC =
      a.dropWhile isWsC ++ (' ' :: '=' :: ' ' :: Q) := by
    rw [List.dropWhile_cons, if_pos (by decide)]
    exact dropWhile_append_of_break isWsC a _ ha1
  have htw : (' ' :: (a ++ (' ' :: '=' :: ' ' :: Q))).takeWhile isWsC =
      ' ' :: a.takeWhile isWsC := by
    rw [List.takeWhile_cons, if_pos (by decide)]
    rw [takeWhile_append_of_break isWsC a _ ha1]
  rw [hdw, htw, heq, List.cons_append]
  unfold remCore
  dsimp only
  rw [hscan]
  dsimp only
  rw [htake, hdrop, ← heq]
  have hkey : (' ' :: a.takeWhile isWsC) ++ (a.dropWhile isWsC ++ [' ']) =
      ' ' :: (a ++ [' ']) := by
    rw [List.cons_append, ← List.append_assoc, List.takeWhile_append_dropWhile]
  rw [hkey]

/-- C9 (counterexample): the memory-write split is not always at the
first `'='`: for `"remember = x = y"` the lazy key group backtracks past
the first `'='` (whose key region would be empty) and the stored key is
`"= x"`, which itself contains `'='`; the stored value is `"y"`. -/
theorem c9_first_eq_counterexample :
    chat aiNone "T".toList ⟨[]⟩ "remember = x = y".toList [] =
      (⟨[("= x".toList, "y".toList)]⟩,
        ⟨msgSaved,
          [⟨"facts.remember".toList, "= x=y".toList, true,
            "Saved.".toList⟩]⟩) ∧
    '=' ∈ "= x".toList := by
  exact ⟨rfl, by decide⟩

/-- C9 (amended): for `remember <a> = <b> = <c>` with `<a>` free of
`'='` and newlines and containing a non-whitespace character, and `<b>`,
`<c>` newline-free, the utterance is split at the first `'='`: the
stored key is the normalization of `<a>` and the stored value is the
trimmed remainder `<b> = <c>` — so stored values may contain `'='`
characters (while such a key, with `'=' ∉ <a>`, cannot). -/
theorem c9_memory_write_splits_at_first_eq (a b c : List Char) (ai : AiFn)
    (now : List Char) (st : FactsStore) (hist : List Turn) (ha : '=' ∉ a)
    (han : a.any (fun x => !isWsC x) = true) (hna : '\n' ∉ a)
    (hnb : '\n' ∉ b) (hnc : '\n' ∉ c) :
    chat ai now st
      ("remember ".toList ++ a ++ " = ".toList ++ b ++ " = ".toList ++ c)
      hist =
      (⟨setA st.facts (normKey a) (trimBoth (b ++ (' ' :: '=' :: ' ' :: c)))⟩,
        ⟨msgSaved,
          [⟨"facts.remember".toList,
            normKey a ++ "=".toList ++ trimBoth (b ++ (' ' :: '=' :: ' ' :: c)),
            true, "Saved.".toList⟩]⟩) := by
  have hg : isGreeting
      ('r' :: 'e' :: 'm' :: 'e' :: 'm' :: 'b' :: 'e' :: 'r' :: ' ' ::
        (a ++ ' ' :: '=' :: ' ' :: (b ++ ' ' :: '=' :: ' ' :: c))) = false := rfl
  unfold chat
  rw [if_neg (by simp [hg]), matchRemember_shape a b c ha han hna hnb hnc]
  simp only
  unfold FactsStore.remember
  simp only
  have hkey : normKey (' ' :: (a ++ [' '])) = normKey a := by
    unfold normKey
    rw [trimBoth_cons_ws ' ' _ rfl, trimBoth_append_ws]
  have hval : trimBoth (' ' :: (b ++ (' ' :: '=' :: ' ' :: c))) =
      trimBoth (b ++ (' ' :: '=' :: ' ' :: c)) :=
    trimBoth_cons_ws ' ' _ rfl
  rw [hkey, hval]

/-- Witness for C9: `"remember project = x = y"` stores key `"project"`
with value `"x = y"`. -/
theorem c9_memory_write_splits_at_first_eq_witness :
    chat aiNone "T".toList ⟨[]⟩ "remember project = x = y".toList [] =
      (⟨[("project".toList, "x = y".toList)]⟩,
        ⟨msgSaved,
          [⟨"facts.remember".toList, "project=x = y".toList, true,
            "Saved.".toList⟩]⟩) := by
  have h := c9_memory_write_splits_at_first_eq "project".toList "x".toList
    "y".toList aiNone "T".toList ⟨[]⟩ [] (by decide) (by decide) (by decide)
    (by decide) (by decide)
  exact h
